import Mathlib

/-!
Verification of the nRF RPC client protocol engine.

This file embeds the packet construction, CBOR value codec, scratchpad
accounting and conversation-client logic of the `nrf-rpc` crate
(`src/packet.rs`, `src/ble.rs`, `src/lib.rs`) as executable Lean
definitions, and proves the testable properties stated in the design
specification about them.

Bytes are modelled as `Nat` (each in `[0, 256)` where the source uses `u8`),
byte buffers as `List Nat`, and fallible operations as `Except`/`Option`.
A Rust panic (out-of-bounds index) is modelled as the distinguished error
outcome `BuildError.panic`.
-/

deriving instance DecidableEq for Except

namespace NrfRpc

/-- CBOR encoding error (`CborError` in `src/packet.rs`). -/
inductive CborError where
  | BufferTooSmall
  | EncodingError
deriving DecidableEq, Repr

/-- Builder failure: either a Rust panic (out-of-bounds buffer index,
which in the source aborts instead of returning) or a returned
`CborError`. -/
inductive BuildError where
  | panic
  | cborErr (e : CborError)
deriving DecidableEq, Repr

/-- RPC client errors (`RpcError` in `src/lib.rs`). -/
inductive RpcError where
  | Transport
  | Cbor (e : CborError)
  | InvalidResponse
  | Timeout
deriving DecidableEq, Repr

/-!
## Value codec (minicbor encoder, as used through `PacketBuilder`)

`minicbor`'s `Encoder::u64` / `Encoder::bytes` / `Encoder::null` emit the
standard CBOR head: a major type in the top 3 bits of the first byte and
an additional-information field selecting the shortest length form.
-/

/-- Big-endian byte decomposition of `v` into `k` bytes (most significant
first), as the fixed-width CBOR forms store their argument. -/
def be_bytes (k : Nat) (v : Nat) : List Nat :=
  match k with
  | 0 => []
  | k' + 1 => v / 256 ^ k' % 256 :: be_bytes k' v

/-- CBOR head for major type `major` and argument `v`: the shortest of the
direct (0..23), one-byte (0x18), two-byte (0x19), four-byte (0x1A) and
eight-byte (0x1B) forms that represents `v`, exactly as `minicbor` emits it. -/
def cbor_head (major : Nat) (v : Nat) : List Nat :=
  if v ≤ 0x17 then [major * 32 + v]
  else if v ≤ 0xFF then [major * 32 + 24, v]
  else if v ≤ 0xFFFF then (major * 32 + 25) :: be_bytes 2 v
  else if v ≤ 0xFFFFFFFF then (major * 32 + 26) :: be_bytes 4 v
  else (major * 32 + 27) :: be_bytes 8 v

/-- Bytes emitted by `Encoder::u64` (major type 0). -/
def cbor_encode_u64 (v : Nat) : List Nat := cbor_head 0 v

/-- Bytes emitted by `Encoder::bytes` (major type 2 head, then the raw bytes). -/
def cbor_encode_bytes (bs : List Nat) : List Nat := cbor_head 2 bs.length ++ bs

/-!
## `PacketBuilder` (`src/packet.rs`)

`PacketBuilder<N>` is a fixed `[u8; N]` buffer plus a write position; only
`buffer[..pos]` is ever observable (through `as_slice`), and all writes are
contiguous from position 0, so the builder is modelled as the capacity
together with the list of bytes written so far.
-/

structure PacketBuilderM where
  cap : Nat
  data : List Nat
deriving DecidableEq, Repr

/-- Model of `PacketBuilder::<N>::new()`. -/
def pb_new (N : Nat) : PacketBuilderM := ⟨N, []⟩

/-- Model of `PacketBuilder::init(self, src_group_id, group_name)`: writes
`0x04 0x00 0xFF src_group_id 0xFF 0x00` at indices 0..5 and then copies the
name bytes at 6..6+len, setting `pos = 6 + len`.  The indexed stores and the
slice copy panic when they reach past the end of the `N`-byte buffer, i.e.
exactly when `6 + len > N`. -/
def pb_init (b : PacketBuilderM) (src_group_id : Nat) (name : List Nat) :
    Except BuildError PacketBuilderM :=
  if 6 + name.length ≤ b.cap then
    .ok ⟨b.cap, [0x04, 0x00, 0xFF, src_group_id, 0xFF, 0x00] ++ name⟩
  else
    .error .panic

/-- Model of `PacketBuilder::command(self, src_ctx_id, cmd_id, dst_ctx_id, src_grp_id,
dst_grp_id)`: writes `(0x80 | src_ctx_id), cmd_id, dst_ctx_id, src_grp_id,
dst_grp_id` at indices 0..4 and sets `pos = 5`; the indexed stores panic when
`N < 5`. -/
def pb_command (b : PacketBuilderM) (src_ctx_id cmd_id dst_ctx_id src_grp_id dst_grp_id : Nat) :
    Except BuildError PacketBuilderM :=
  if 5 ≤ b.cap then
    .ok ⟨b.cap, [0x80 ||| src_ctx_id, cmd_id, dst_ctx_id, src_grp_id, dst_grp_id]⟩
  else
    .error .panic

/-- Model of `SliceWriter::write_all` through one encoder call: appends the encoded
bytes when `pos + len ≤ N`; otherwise the writer reports `BufferTooSmall`,
which the `From<minicbor::encode::Error<CborError>>` impl in `src/packet.rs`
collapses to `CborError::EncodingError` before it reaches the caller. -/
def pb_write (b : PacketBuilderM) (e : List Nat) : Except BuildError PacketBuilderM :=
  if b.data.length + e.length ≤ b.cap then
    .ok ⟨b.cap, b.data ++ e⟩
  else
    .error (.cborErr .EncodingError)

/-- Model of `PacketBuilder::cbor_uint`. -/
def pb_cbor_uint (b : PacketBuilderM) (v : Nat) : Except BuildError PacketBuilderM :=
  pb_write b (cbor_encode_u64 v)

/-- Model of `PacketBuilder::cbor_bytes`. -/
def pb_cbor_bytes (b : PacketBuilderM) (bs : List Nat) : Except BuildError PacketBuilderM :=
  pb_write b (cbor_encode_bytes bs)

/-- Model of `PacketBuilder::cbor_null` (encodes `0xF6`). -/
def pb_cbor_null (b : PacketBuilderM) : Except BuildError PacketBuilderM :=
  pb_write b [0xF6]

/-!
## BLE command encoding (`src/ble.rs`)
-/

/-- Model of `BtAddrLe` (`bt_addr_le_t`): an address type byte plus six address bytes. -/
structure BtAddrLe where
  addr_type : Nat
  addr : List Nat
deriving DecidableEq, Repr

/-- Model of `BtLeAdvParam` (`bt_le_adv_param`). -/
structure BtLeAdvParam where
  id : Nat
  sid : Nat
  secondary_max_skip : Nat
  options : Nat
  interval_min : Nat
  interval_max : Nat
  peer : Option BtAddrLe
deriving DecidableEq, Repr

/-- Model of `BtData` (`bt_data`): an advertising-data type byte and its payload bytes. -/
structure BtData where
  data_type : Nat
  data : List Nat
deriving DecidableEq, Repr

def BT_ENABLE_RPC_CMD : Nat := 0x00
def BT_LE_ADV_START_RPC_CMD : Nat := 0x04

/-- Model of `align_to_4` in `src/ble.rs`: `(size + 3) & !3` on `usize`; `!3` is the
64-bit mask `2^64 - 4`, whose conjunction also performs the `usize` wrap. -/
def align_to_4 (size : Nat) : Nat := (size + 3) &&& (2 ^ 64 - 4)

/-- Model of `calculate_scratchpad_size` in `src/ble.rs`: accumulates, for each `ad`
then each `sd` item, `align_to_4(BT_DATA_SIZE) + align_to_4(data.len())`
with `BT_DATA_SIZE = 8`, then adds `align_to_4(7)` when a peer address is
present. -/
def calculate_scratchpad_size (param : BtLeAdvParam) (ad sd : List BtData) : Nat :=
  let size := ad.foldl (fun acc item => acc + align_to_4 8 + align_to_4 item.data.length) 0
  let size := sd.foldl (fun acc item => acc + align_to_4 8 + align_to_4 item.data.length) size
  if param.peer.isSome then size + align_to_4 7 else size

/-- Model of `encode_bt_data` in `src/ble.rs`. -/
def encode_bt_data (b : PacketBuilderM) (d : BtData) : Except BuildError PacketBuilderM := do
  let b ← pb_cbor_uint b d.data_type
  let b ← pb_cbor_uint b d.data.length
  pb_cbor_bytes b d.data

/-- The `for` loops in `encode_bt_le_adv_start` that encode each `bt_data`
item in order. -/
def encode_bt_data_list (b : PacketBuilderM) : List BtData → Except BuildError PacketBuilderM
  | [] => .ok b
  | d :: rest => do
    let b' ← encode_bt_data b d
    encode_bt_data_list b' rest

/-- Model of `encode_bt_le_adv_start::<N>` in `src/ble.rs`. -/
def encode_bt_le_adv_start (N : Nat) (src_ctx_id src_grp_id dst_grp_id : Nat)
    (param : BtLeAdvParam) (ad sd : List BtData) : Except BuildError PacketBuilderM := do
  let scratchpad_size := calculate_scratchpad_size param ad sd
  let b ← pb_command (pb_new N) src_ctx_id BT_LE_ADV_START_RPC_CMD 0xFF src_grp_id dst_grp_id
  let b ← pb_cbor_uint b scratchpad_size
  let b ← pb_cbor_uint b param.id
  let b ← pb_cbor_uint b param.sid
  let b ← pb_cbor_uint b param.secondary_max_skip
  let b ← pb_cbor_uint b param.options
  let b ← pb_cbor_uint b param.interval_min
  let b ← pb_cbor_uint b param.interval_max
  let b ← pb_cbor_null b
  let b ← pb_cbor_uint b ad.length
  let b ← encode_bt_data_list b ad
  let b ← pb_cbor_uint b sd.length
  let b ← encode_bt_data_list b sd
  pb_cbor_null b

/-- Model of the `Ble::bt_enable` packet construction (`src/ble.rs`): a 64-byte builder,
`command(ctx, BT_ENABLE_RPC_CMD, 0xFF, grp, grp)`, two `cbor_uint(28)` and a
`cbor_null`; returns the bytes handed to `send_command`. -/
def bt_enable_packet (ctx grp : Nat) : Except BuildError (List Nat) := do
  let b ← pb_command (pb_new 64) ctx BT_ENABLE_RPC_CMD 0xFF grp grp
  let b ← pb_cbor_uint b 28
  let b ← pb_cbor_uint b 28
  let b ← pb_cbor_null b
  pure b.data

/-!
## Value codec decoding (minicbor `Decoder`, as used by `src/lib.rs`)
-/

/-- Big-endian reassembly of a byte list, as the decoder reads fixed-width
CBOR arguments. -/
def be_value (l : List Nat) : Nat := l.foldl (fun acc b => acc * 256 + b) 0

/-- Parse one CBOR head from `bs`: returns `(major, argument, rest)`, or
`none` on truncated input or a reserved additional-information value. -/
def cbor_decode_head (bs : List Nat) : Option (Nat × Nat × List Nat) :=
  match bs with
  | [] => none
  | b :: rest =>
    let major := b / 32
    let info := b % 32
    if info ≤ 23 then some (major, info, rest)
    else if info = 24 then
      match rest with
      | x :: r => some (major, x, r)
      | [] => none
    else if info = 25 then
      if 2 ≤ rest.length then some (major, be_value (rest.take 2), rest.drop 2) else none
    else if info = 26 then
      if 4 ≤ rest.length then some (major, be_value (rest.take 4), rest.drop 4) else none
    else if info = 27 then
      if 8 ≤ rest.length then some (major, be_value (rest.take 8), rest.drop 8) else none
    else none

/-- Decode the leading CBOR item as an integer: major type 0 yields the
argument, major type 1 yields `-1 - argument`; any other major type, or a
malformed head, is a decode error. -/
def cbor_decode_int (bs : List Nat) : Option Int :=
  match cbor_decode_head bs with
  | some (0, v, _) => some (Int.ofNat v)
  | some (1, v, _) => some (-1 - Int.ofNat v)
  | _ => none

/-- Model of `RpcClient::decode_i32_response` (`src/lib.rs`): decodes the payload's
leading item via `Decoder::i32`, which fails both when the item is not an
integer and when the value does not fit in an `i32`. -/
def decode_i32_response (payload : List Nat) : Except RpcError Int :=
  match cbor_decode_int payload with
  | some x => if -(2 ^ 31) ≤ x ∧ x < 2 ^ 31 then .ok x else .error .InvalidResponse
  | none => .error .InvalidResponse

/-!
## Conversation client (`src/lib.rs`)

The transport is abstracted by the outcomes of its calls: `writeOk` tells
whether a `transport.write` succeeded, and a read outcome is `none` for a
transport error or `some bytes` for a successful read that placed exactly
`bytes` into the response buffer (so `bytes.length` is the returned count).
-/

/-- Model of `RpcClient::send_command` (`src/lib.rs`): send the packet, perform one
blocking read, reject responses shorter than 5 bytes or whose low 7 bits of
byte 0 are not the Response code `0x01`, otherwise decode bytes `5..len` as
the `i32` result. -/
def send_command_model (writeOk : Bool) (readResult : Option (List Nat)) :
    Except RpcError Int :=
  if writeOk = false then .error .Transport
  else
    match readResult with
    | none => .error .Transport
    | some resp =>
      if resp.length < 5 then .error .InvalidResponse
      else if (resp.headD 0) &&& 0x7F ≠ 0x01 then .error .InvalidResponse
      else decode_i32_response (resp.drop 5)

/-- Model of `RpcClient::init` (`src/lib.rs`): send the two registration packets,
then perform two blocking reads; after each read the corresponding group id
(initially the sentinel `0xFF` set by `RpcClient::new`) is updated to byte 4
of the reply only when the read yielded at least 5 bytes and byte 0 equals
`0x04`; otherwise the reply is discarded and the sentinel kept.  Returns the
pair `(bt_rpc_group_id, rpc_utils_group_id)`. -/
def rpc_init_model (w1 w2 : Bool) (r1 r2 : Option (List Nat)) :
    Except RpcError (Nat × Nat) :=
  if w1 = false then .error .Transport
  else if w2 = false then .error .Transport
  else
    match r1 with
    | none => .error .Transport
    | some p1 =>
      let bt_rpc_group_id := if 5 ≤ p1.length ∧ p1.headD 0 = 0x04 then p1.getD 4 0 else 0xFF
      match r2 with
      | none => .error .Transport
      | some p2 =>
        let rpc_utils_group_id := if 5 ≤ p2.length ∧ p2.headD 0 = 0x04 then p2.getD 4 0 else 0xFF
        .ok (bt_rpc_group_id, rpc_utils_group_id)

/-!
## Header decode
-/

/-- The five header fields plus the source context id that a Command type
byte carries in its low 7 bits. -/
structure PacketHeader where
  ptype : Nat
  src_ctx_id : Nat
  cmd_id : Nat
  dst_ctx_id : Nat
  src_grp_id : Nat
  dst_grp_id : Nat
deriving DecidableEq, Repr

/-- Modelled from the spec: `decode(packet)` of the Header Codec (spec 4.1)
has no standalone function in `src/` (its logic appears only inline in
`send_command`).  Per the spec it fails with `InvalidResponse` on packets
shorter than 5 bytes, and otherwise returns the header fields, masking the
low 7 bits of byte 0 when the packet type is Command: the type is the
Command bit `0x80` and the low 7 bits are the source context id; for all
other types byte 0 is the type itself. -/
def header_decode (packet : List Nat) : Except RpcError PacketHeader :=
  if packet.length < 5 then .error .InvalidResponse
  else
    let b0 := packet.headD 0
    if b0 &&& 0x80 = 0x80 then
      .ok ⟨0x80, b0 &&& 0x7F, packet.getD 1 0, packet.getD 2 0, packet.getD 3 0, packet.getD 4 0⟩
    else
      .ok ⟨b0, 0, packet.getD 1 0, packet.getD 2 0, packet.getD 3 0, packet.getD 4 0⟩

/-!
## Helper lemmas
-/

lemma mask64_eq : (2 : Nat) ^ 64 - 4 = (2 ^ 62 - 1) <<< 2 := by
  rw [Nat.shiftLeft_eq]
  norm_num

lemma testBit_mask64 (i : Nat) :
    ((2 : Nat) ^ 64 - 4).testBit i = (decide (2 ≤ i) && decide (i < 64)) := by
  rw [mask64_eq, Nat.testBit_shiftLeft, Nat.testBit_two_pow_sub_one]
  congr 1
  exact decide_eq_decide.mpr (by omega)

lemma land_mask64 {x : Nat} (h : x < 2 ^ 64) : x &&& (2 ^ 64 - 4) = x / 4 * 4 := by
  have hx : x / 4 * 4 = (x >>> 2) <<< 2 := by
    rw [Nat.shiftRight_eq_div_pow, Nat.shiftLeft_eq]
  rw [hx]
  apply Nat.eq_of_testBit_eq
  intro i
  rw [Nat.testBit_and, testBit_mask64, Nat.testBit_shiftLeft, Nat.testBit_shiftRight]
  by_cases h2 : 2 ≤ i
  · by_cases h64 : i < 64
    · have hi : 2 + (i - 2) = i := by omega
      simp [h2, h64, hi]
    · have hbf : x.testBit i = false :=
        Nat.testBit_lt_two_pow (lt_of_lt_of_le h (Nat.pow_le_pow_right (by norm_num) (by omega)))
      have hbf2 : x.testBit (2 + (i - 2)) = false := by
        rw [show 2 + (i - 2) = i by omega]
        exact hbf
      simp [h2, h64, hbf, hbf2]
  · simp [h2]

lemma align_to_4_eq {n : Nat} (h : n + 3 < 2 ^ 64) : align_to_4 n = (n + 3) / 4 * 4 := by
  unfold align_to_4
  exact land_mask64 h

lemma align_to_4_of_dvd {n : Nat} (h4 : n % 4 = 0) (h : n < 2 ^ 64) : align_to_4 n = n := by
  have hp : (2 : Nat) ^ 64 = 18446744073709551616 := by norm_num
  have h3 : n + 3 < 2 ^ 64 := by omega
  rw [align_to_4_eq h3]
  omega

lemma scratch_foldl (l : List BtData) (z : Nat) :
    l.foldl (fun acc item => acc + align_to_4 8 + align_to_4 item.data.length) z
      = z + (l.map fun item => align_to_4 8 + align_to_4 item.data.length).sum := by
  induction l generalizing z with
  | nil => simp
  | cons d rest ih =>
    simp only [List.foldl_cons, List.map_cons, List.sum_cons, ih]
    omega

/-!
## C5: zero-argument enable call byte sequence
-/

/-- C5: with both group ids resolved to `0x00` (and the client's context id
0), the `bt_enable` call serializes to exactly
`80 00 FF 00 00 18 1C 18 1C F6`: the 5-byte command header followed by two
minimal-length CBOR unsigned integers of value 28 and the null terminator. -/
theorem C5_bt_enable_bytes :
    bt_enable_packet 0 0
      = .ok [0x80, 0x00, 0xFF, 0x00, 0x00, 0x18, 0x1C, 0x18, 0x1C, 0xF6] := by
  decide

/-!
## C1: advertise-start call byte sequence

The spec's expected trace omits the CBOR byte-string head `0x49` that
`cbor_bytes` emits in front of the nine scan-response name bytes; the
encoder (and the repository's own test) produce it.
-/

/-- C1 (counterexample): for the advertise-start call of the claim
(id=0, sid=0, secondary_max_skip=0, options=0x03, interval_min=160,
interval_max=240, no peer, ad item {type=0x01, data=[0x06]}, sd item
{type=0x09, data="Nordic_PS"}), `encode_bt_le_adv_start` does NOT produce
the claim's byte sequence
`80 04 FF 00 00 18 20 00 00 00 03 18 A0 18 F0 F6 01 01 01 41 06 01 09 09 4E
6F 72 64 69 63 5F 50 53 F6`. -/
theorem C1_adv_start_counterexample :
    (encode_bt_le_adv_start 256 0 0 0 ⟨0, 0, 0, 0x03, 160, 240, none⟩
        [⟨0x01, [0x06]⟩] [⟨0x09, [0x4E, 0x6F, 0x72, 0x64, 0x69, 0x63, 0x5F, 0x50, 0x53]⟩]).map
        (fun b => b.data)
      ≠ .ok [0x80, 0x04, 0xFF, 0x00, 0x00, 0x18, 0x20, 0x00, 0x00, 0x00, 0x03, 0x18, 0xA0,
             0x18, 0xF0, 0xF6, 0x01, 0x01, 0x01, 0x41, 0x06, 0x01, 0x09, 0x09, 0x4E, 0x6F,
             0x72, 0x64, 0x69, 0x63, 0x5F, 0x50, 0x53, 0xF6] := by
  decide

/-- C1 (amended): the same advertise-start call serializes to
`80 04 FF 00 00 18 20 00 00 00 03 18 A0 18 F0 F6 01 01 01 41 06 01 09 09 49
4E 6F 72 64 69 63 5F 50 53 F6`: the scan-response name bytes are preceded by
the CBOR byte-string head `0x49` (major type 2, length 9). -/
theorem C1_adv_start_bytes :
    (encode_bt_le_adv_start 256 0 0 0 ⟨0, 0, 0, 0x03, 160, 240, none⟩
        [⟨0x01, [0x06]⟩] [⟨0x09, [0x4E, 0x6F, 0x72, 0x64, 0x69, 0x63, 0x5F, 0x50, 0x53]⟩]).map
        (fun b => b.data)
      = .ok [0x80, 0x04, 0xFF, 0x00, 0x00, 0x18, 0x20, 0x00, 0x00, 0x00, 0x03, 0x18, 0xA0,
             0x18, 0xF0, 0xF6, 0x01, 0x01, 0x01, 0x41, 0x06, 0x01, 0x09, 0x09, 0x49, 0x4E,
             0x6F, 0x72, 0x64, 0x69, 0x63, 0x5F, 0x50, 0x53, 0xF6] := by
  decide

/-!
## C7 and C8: init-packet encoding
-/

/-- C7: for every group name and destination capacity `N`, if the 6 fixed
bytes plus the name's byte length exceed `N`, the init-packet encoding fails
(in the source, the out-of-bounds buffer index panics, modelled as the
`BuildError.panic` outcome); it never writes out of bounds and never
succeeds with a truncated packet. -/
theorem C7_init_overflow_fails (N src : Nat) (name : List Nat)
    (hover : N < 6 + name.length) :
    pb_init (pb_new N) src name = .error .panic := by
  unfold pb_init pb_new
  rw [if_neg (by simpa using hover)]

/-- C7 witness: a capacity-4 buffer cannot hold the 6 fixed bytes plus a
one-byte name. -/
theorem C7_init_overflow_fails_witness :
    pb_init (pb_new 4) 0 [98] = .error .panic :=
  C7_init_overflow_fails 4 0 [98] (by decide)

/-- C8: for every `src_group_id` byte and every group name that fits in the
buffer, the init-packet encoding produces exactly
`[0x04, 0x00, 0xFF, src_group_id, 0xFF, 0x00]` followed by the raw bytes of
the group name, with no length prefix and no terminator. -/
theorem C8_init_packet_bytes (N src : Nat) (name : List Nat)
    (hfit : 6 + name.length ≤ N) (_hsrc : src < 256) :
    pb_init (pb_new N) src name
      = .ok ⟨N, [0x04, 0x00, 0xFF, src, 0xFF, 0x00] ++ name⟩ := by
  unfold pb_init pb_new
  rw [if_pos (by simpa using hfit)]

/-- C8 witness: the registration packet for group name "bt_rpc"
(bytes `62 74 5F 72 70 63`) with source group id 0 in a 64-byte buffer. -/
theorem C8_init_packet_bytes_witness :
    pb_init (pb_new 64) 0 [0x62, 0x74, 0x5F, 0x72, 0x70, 0x63]
      = .ok ⟨64, [0x04, 0x00, 0xFF, 0x00, 0xFF, 0x00]
          ++ [0x62, 0x74, 0x5F, 0x72, 0x70, 0x63]⟩ :=
  C8_init_packet_bytes 64 0 [0x62, 0x74, 0x5F, 0x72, 0x70, 0x63] (by decide) (by decide)

/-!
## C2: scratchpad sizing
-/

/-- C2: for every parameter structure and all item lists,
`calculate_scratchpad_size` returns the sum over all items (advertising then
scan-response) of `align4(8) + align4(data length)`, plus `align4(7)` if and
only if a peer address is present; in particular the result is 0 for empty
item lists with no peer, and a data length already divisible by 4
contributes exactly `align4(8) + length = 8 + length`, with no extra
padding. -/
theorem C2_scratchpad_size (param : BtLeAdvParam) (ad sd : List BtData) :
    calculate_scratchpad_size param ad sd
        = (ad.map fun item => align_to_4 8 + align_to_4 item.data.length).sum
          + (sd.map fun item => align_to_4 8 + align_to_4 item.data.length).sum
          + (if param.peer.isSome then align_to_4 7 else 0)
    ∧ calculate_scratchpad_size ⟨param.id, param.sid, param.secondary_max_skip,
        param.options, param.interval_min, param.interval_max, none⟩ [] [] = 0
    ∧ (∀ n, n % 4 = 0 → n < 2 ^ 64 → align_to_4 8 + align_to_4 n = 8 + n) := by
  refine ⟨?_, rfl, ?_⟩
  · simp only [calculate_scratchpad_size, scratch_foldl, Nat.zero_add]
    by_cases hp : param.peer.isSome <;> simp [hp]
  · intro n h4 h64
    rw [align_to_4_of_dvd h4 h64]
    have h8 : align_to_4 8 = 8 := by decide
    omega

/-- C2 witness: one advertising item of data length 1, one scan-response
item of data length 4 (already aligned) and no peer give
`(8 + 4) + (8 + 4) = 24`, and the aligned length 4 contributes itself. -/
theorem C2_scratchpad_size_witness :
    calculate_scratchpad_size ⟨0, 0, 0, 3, 160, 240, none⟩ [⟨1, [6]⟩] [⟨9, [1, 2, 3, 4]⟩]
        = (([⟨1, [6]⟩] : List BtData).map fun item =>
            align_to_4 8 + align_to_4 item.data.length).sum
          + (([⟨9, [1, 2, 3, 4]⟩] : List BtData).map fun item =>
              align_to_4 8 + align_to_4 item.data.length).sum
          + (if (none : Option BtAddrLe).isSome then align_to_4 7 else 0)
    ∧ align_to_4 8 + align_to_4 4 = 8 + 4 := by
  have h := C2_scratchpad_size ⟨0, 0, 0, 3, 160, 240, none⟩ [⟨1, [6]⟩] [⟨9, [1, 2, 3, 4]⟩]
  exact ⟨h.1, h.2.2 4 (by decide) (by norm_num)⟩

/-!
## C4: handshake leniency
-/

/-- C4: during the registration handshake, if the first or the second
blocking read returns a packet that does not look like the expected
registration reply (fewer than 5 bytes, or byte 0 not equal to the expected
type tag `0x04`), `init` still completes successfully and the corresponding
group id remains the unknown sentinel `0xFF`; the malformed read is
silently discarded. -/
theorem C4_handshake_leniency (p1 p2 : List Nat) :
    ((p1.length < 5 ∨ p1.headD 0 ≠ 0x04) →
      ∃ r, rpc_init_model true true (some p1) (some p2) = .ok (0xFF, r))
    ∧ ((p2.length < 5 ∨ p2.headD 0 ≠ 0x04) →
      ∃ r, rpc_init_model true true (some p1) (some p2) = .ok (r, 0xFF)) := by
  constructor
  · intro h
    have hc : ¬(5 ≤ p1.length ∧ p1.headD 0 = 0x04) := by
      rcases h with h | h
      · exact fun hh => absurd hh.1 (by omega)
      · exact fun hh => h hh.2
    exact ⟨_, by simp only [rpc_init_model, if_neg hc]; rfl⟩
  · intro h
    have hc : ¬(5 ≤ p2.length ∧ p2.headD 0 = 0x04) := by
      rcases h with h | h
      · exact fun hh => absurd hh.1 (by omega)
      · exact fun hh => h hh.2
    exact ⟨_, by simp only [rpc_init_model, if_neg hc]; rfl⟩

/-- C4 witness: a 3-byte first reply is discarded, construction succeeds,
and the first group id stays `0xFF` while the well-formed second reply
assigns the second group id. -/
theorem C4_handshake_leniency_witness :
    ∃ r, rpc_init_model true true (some [1, 2, 3]) (some [4, 0, 0, 0, 7]) = .ok (0xFF, r) :=
  (C4_handshake_leniency [1, 2, 3] [4, 0, 0, 0, 7]).1 (Or.inl (by decide))

/-!
## C3: response validation in send_command
-/

/-- C3: for every received byte sequence, `send_command` fails with
`InvalidResponse` if the read yields fewer than 5 bytes or if the low 7 bits
of byte 0 differ from the Response code `0x01` (no decode of the payload
happens in those cases — the result is `InvalidResponse` whatever the
remaining bytes are); otherwise it decodes bytes 5..end as a single integer
item, returning the integer on success and failing with `InvalidResponse`
when those bytes do not parse as an (i32-ranged) integer item. -/
theorem C3_send_command_response (resp : List Nat) :
    ((resp.length < 5 ∨ (resp.headD 0) &&& 0x7F ≠ 0x01) →
      send_command_model true (some resp) = .error .InvalidResponse)
    ∧ (5 ≤ resp.length → (resp.headD 0) &&& 0x7F = 0x01 →
      send_command_model true (some resp) = decode_i32_response (resp.drop 5))
    ∧ (5 ≤ resp.length → (resp.headD 0) &&& 0x7F = 0x01 →
        cbor_decode_int (resp.drop 5) = none →
      send_command_model true (some resp) = .error .InvalidResponse)
    ∧ (∀ x : Int, 5 ≤ resp.length → (resp.headD 0) &&& 0x7F = 0x01 →
        cbor_decode_int (resp.drop 5) = some x → -(2 ^ 31) ≤ x → x < 2 ^ 31 →
      send_command_model true (some resp) = .ok x) := by
  refine ⟨?_, ?_, ?_, ?_⟩
  · intro h
    rcases h with h | h
    · simp [send_command_model, h]
    · simp only [List.headD_eq_head?] at h
      by_cases hl : resp.length < 5
      · simp [send_command_model, hl]
      · simp [send_command_model, hl, h]
  · intro hl hm
    simp only [List.headD_eq_head?] at hm
    simp [send_command_model, Nat.not_lt.mpr hl, hm]
  · intro hl hm hd
    simp only [List.headD_eq_head?] at hm
    simp [send_command_model, Nat.not_lt.mpr hl, hm, decode_i32_response, hd]
  · intro x hl hm hd hlo hhi
    simp only [List.headD_eq_head?] at hm
    have hlo2 : (-2147483648 : Int) ≤ x := by
      have : ((-2) : Int) ^ 31 = -2147483648 := by norm_num
      omega
    have hhi2 : x < 2147483648 := by
      have : ((2) : Int) ^ 31 = 2147483648 := by norm_num
      omega
    simp [send_command_model, Nat.not_lt.mpr hl, hm, decode_i32_response, hd, hlo2, hhi2]

/-- C3 witness: the 7-byte response `01 00 00 00 00 18 2A` carries the
Response type and the CBOR integer 42 in its payload, and the call returns
42. -/
theorem C3_send_command_response_witness :
    send_command_model true (some [0x01, 0, 0, 0, 0, 0x18, 0x2A]) = .ok 42 :=
  (C3_send_command_response [0x01, 0, 0, 0, 0, 0x18, 0x2A]).2.2.2 42 (by decide) (by decide)
    (by decide) (by decide) (by decide)

/-!
## C9: header encode/decode round-trip
-/

lemma lor80_and80 (ctx : Nat) : (0x80 ||| ctx) &&& 0x80 = 0x80 := by
  apply Nat.eq_of_testBit_eq
  intro i
  rw [Nat.testBit_and, Nat.testBit_or]
  cases h1 : Nat.testBit 0x80 i <;> cases h2 : Nat.testBit ctx i <;> simp [h1, h2]

lemma lor80_and7F {ctx : Nat} (h : ctx < 128) : (0x80 ||| ctx) &&& 0x7F = ctx := by
  apply Nat.eq_of_testBit_eq
  intro i
  rw [Nat.testBit_and, Nat.testBit_or]
  rw [show (0x7F : Nat) = 2 ^ 7 - 1 by norm_num, show (0x80 : Nat) = 2 ^ 7 by norm_num,
    Nat.testBit_two_pow_sub_one, Nat.testBit_two_pow]
  by_cases hi : i < 7
  · have h7 : ¬(7 = i) := by omega
    simp [hi, h7]
  · have hf : ctx.testBit i = false :=
      Nat.testBit_lt_two_pow (lt_of_lt_of_le (show ctx < 2 ^ 7 from h)
        (Nat.pow_le_pow_right (by norm_num) (by omega)))
    simp [hi, hf]

/-- C9: for every choice of the five header fields in their valid byte
ranges (the source context id fitting in the low 7 bits), encoding a
command header and then decoding the resulting 5 bytes returns the original
field values unchanged. -/
theorem C9_header_roundtrip (N ctx cmd dst sg dg : Nat) (hN : 5 ≤ N) (hctx : ctx < 128)
    (_hcmd : cmd < 256) (_hdst : dst < 256) (_hsg : sg < 256) (_hdg : dg < 256) :
    ∃ b, pb_command (pb_new N) ctx cmd dst sg dg = .ok b
      ∧ header_decode b.data = .ok ⟨0x80, ctx, cmd, dst, sg, dg⟩ := by
  refine ⟨⟨N, [0x80 ||| ctx, cmd, dst, sg, dg]⟩, ?_, ?_⟩
  · unfold pb_command pb_new
    rw [if_pos (by simpa using hN)]
  · simp [header_decode, lor80_and80, lor80_and7F hctx]

/-- C9 witness: context id 5, command id 1, destination context `0xFF`,
source and destination group 0 round-trip through a 64-byte builder. -/
theorem C9_header_roundtrip_witness :
    ∃ b, pb_command (pb_new 64) 5 1 0xFF 0 0 = .ok b
      ∧ header_decode b.data = .ok ⟨0x80, 5, 1, 0xFF, 0, 0⟩ :=
  C9_header_roundtrip 64 5 1 0xFF 0 0 (by decide) (by decide) (by decide) (by decide)
    (by decide) (by decide)

/-!
## C6: minimal-length unsigned integer encoding
-/

/-- Minimum number of bytes in which the CBOR unsigned-integer format can
represent `v`, stated from the spec: the format offers forms of 1, 2, 3, 5
and 9 bytes, covering `0..23`, `..0xFF`, `..0xFFFF`, `..0xFFFFFFFF` and
`..2^64-1` respectively. -/
def spec_min_uint_len (v : Nat) : Nat :=
  if v ≤ 23 then 1
  else if v ≤ 0xFF then 2
  else if v ≤ 0xFFFF then 3
  else if v ≤ 0xFFFFFFFF then 5
  else 9

lemma be_bytes_length (k v : Nat) : (be_bytes k v).length = k := by
  induction k generalizing v with
  | zero => rfl
  | succ k ih => simp [be_bytes, ih]

lemma cbor_encode_u64_length (v : Nat) :
    (cbor_encode_u64 v).length = spec_min_uint_len v := by
  unfold cbor_encode_u64 cbor_head spec_min_uint_len
  split_ifs <;> simp [be_bytes_length]

lemma be_value_foldl_lt (l : List Nat) (acc : Nat) (h : ∀ x ∈ l, x < 256) :
    l.foldl (fun a b => a * 256 + b) acc < (acc + 1) * 256 ^ l.length := by
  induction l generalizing acc with
  | nil => simp
  | cons b t ih =>
    simp only [List.foldl_cons, List.length_cons]
    have hb : b < 256 := h b (List.mem_cons_self b t)
    have ht : ∀ x ∈ t, x < 256 := fun x hx => h x (List.mem_cons_of_mem _ hx)
    calc t.foldl (fun a c => a * 256 + c) (acc * 256 + b)
        < (acc * 256 + b + 1) * 256 ^ t.length := ih (acc * 256 + b) ht
      _ ≤ ((acc + 1) * 256) * 256 ^ t.length := by
          have hle : acc * 256 + b + 1 ≤ (acc + 1) * 256 := by omega
          exact Nat.mul_le_mul_right _ hle
      _ = (acc + 1) * 256 ^ (t.length + 1) := by ring

lemma be_value_lt (l : List Nat) (h : ∀ x ∈ l, x < 256) : be_value l < 256 ^ l.length := by
  have hv := be_value_foldl_lt l 0 h
  simpa [be_value] using hv

/-- Any well-formed byte sequence that the head parser reads back as the
unsigned integer `v` (consuming all of it) is at least as long as the
encoder's output for `v`: the encoder always picks the shortest form. -/
lemma cbor_uint_min_len (v : Nat) (bs : List Nat) (hb : ∀ x ∈ bs, x < 256)
    (h : cbor_decode_head bs = some (0, v, [])) :
    (cbor_encode_u64 v).length ≤ bs.length := by
  rw [cbor_encode_u64_length]
  match bs with
  | [] => simp [cbor_decode_head] at h
  | b :: rest =>
    simp only [cbor_decode_head] at h
    have hrest : ∀ x ∈ rest, x < 256 := fun x hx => hb x (List.mem_cons_of_mem _ hx)
    by_cases h1 : b % 32 ≤ 23
    · rw [if_pos h1] at h
      simp only [Option.some.injEq, Prod.mk.injEq] at h
      obtain ⟨-, hv, -⟩ := h
      have hm : spec_min_uint_len v = 1 := by
        unfold spec_min_uint_len
        rw [if_pos (by omega)]
      simp only [hm, List.length_cons]
      omega
    · rw [if_neg h1] at h
      by_cases h2 : b % 32 = 24
      · rw [if_pos h2] at h
        match rest with
        | [] => exact absurd h (by simp)
        | x :: r =>
          simp only [Option.some.injEq, Prod.mk.injEq] at h
          obtain ⟨-, hv, -⟩ := h
          have hx : x < 256 := hrest x (List.mem_cons_self x r)
          have hm : spec_min_uint_len v ≤ 2 := by
            unfold spec_min_uint_len
            split_ifs <;> omega
          simp only [List.length_cons]
          omega
      · rw [if_neg h2] at h
        by_cases h3 : b % 32 = 25
        · rw [if_pos h3] at h
          by_cases h4 : 2 ≤ rest.length
          · rw [if_pos h4] at h
            simp only [Option.some.injEq, Prod.mk.injEq] at h
            obtain ⟨-, hv, -⟩ := h
            have hvlt : v < 256 ^ 2 := by
              rw [← hv]
              have hbv := be_value_lt (rest.take 2)
                (fun x hx => hrest x (List.mem_of_mem_take hx))
              simpa [List.length_take, Nat.min_eq_left h4] using hbv
            have hm : spec_min_uint_len v ≤ 3 := by
              unfold spec_min_uint_len
              split_ifs <;> omega
            simp only [List.length_cons]
            omega
          · rw [if_neg h4] at h
            exact absurd h (by simp)
        · rw [if_neg h3] at h
          by_cases h5 : b % 32 = 26
          · rw [if_pos h5] at h
            by_cases h6 : 4 ≤ rest.length
            · rw [if_pos h6] at h
              simp only [Option.some.injEq, Prod.mk.injEq] at h
              obtain ⟨-, hv, -⟩ := h
              have hvlt : v < 256 ^ 4 := by
                rw [← hv]
                have hbv := be_value_lt (rest.take 4)
                  (fun x hx => hrest x (List.mem_of_mem_take hx))
                simpa [List.length_take, Nat.min_eq_left h6] using hbv
              have hm : spec_min_uint_len v ≤ 5 := by
                unfold spec_min_uint_len
                split_ifs <;> omega
              simp only [List.length_cons]
              omega
            · rw [if_neg h6] at h
              exact absurd h (by simp)
          · rw [if_neg h5] at h
            by_cases h7 : b % 32 = 27
            · rw [if_pos h7] at h
              by_cases h8 : 8 ≤ rest.length
              · rw [if_pos h8] at h
                simp only [Option.some.injEq, Prod.mk.injEq] at h
                obtain ⟨-, -, hr⟩ := h
                have hm : spec_min_uint_len v ≤ 9 := by
                  unfold spec_min_uint_len
                  split_ifs <;> omega
                have hlen2 : rest.length ≤ 8 := List.drop_eq_nil_iff.mp hr
                simp only [List.length_cons]
                omega
              · rw [if_neg h8] at h
                exact absurd h (by simp)
            · rw [if_neg h7] at h
              exact absurd h (by simp)

/-- C6: `cbor_uint` encodes every unsigned integer in canonical
minimal-length form: values 0–23 as the single byte equal to the value,
24–255 as the marker `0x18` plus one byte, larger ranges in the next-larger
fixed-width forms; every byte sequence the head parser reads back as `v`
is at least as long as the encoding, and for each input in
{0, 23, 24, 255, 256, 65535, 65536} the encoded length is the minimum the
format allows and decoding the encoding recovers the exact input. -/
theorem C6_cbor_uint_minimal :
    (∀ v, pb_cbor_uint (pb_new 16) v = .ok ⟨16, cbor_encode_u64 v⟩)
    ∧ (∀ v, v ≤ 23 → cbor_encode_u64 v = [v])
    ∧ (∀ v, 24 ≤ v → v ≤ 255 → cbor_encode_u64 v = [0x18, v])
    ∧ (∀ v, 256 ≤ v → v ≤ 0xFFFF → (cbor_encode_u64 v).length = 3)
    ∧ (∀ v, 0x10000 ≤ v → v ≤ 0xFFFFFFFF → (cbor_encode_u64 v).length = 5)
    ∧ (∀ v, 0xFFFFFFFF < v → (cbor_encode_u64 v).length = 9)
    ∧ (∀ v, ∀ bs, (∀ x ∈ bs, x < 256) → cbor_decode_head bs = some (0, v, []) →
        (cbor_encode_u64 v).length ≤ bs.length)
    ∧ (∀ v ∈ ([0, 23, 24, 255, 256, 65535, 65536] : List Nat),
        (cbor_encode_u64 v).length = spec_min_uint_len v
        ∧ cbor_decode_head (cbor_encode_u64 v) = some (0, v, [])) := by
  refine ⟨?_, ?_, ?_, ?_, ?_, ?_, cbor_uint_min_len, by decide⟩
  · intro v
    have hlen : (cbor_encode_u64 v).length ≤ 9 := by
      rw [cbor_encode_u64_length]
      unfold spec_min_uint_len
      split_ifs <;> omega
    unfold pb_cbor_uint pb_write pb_new
    have hc : (([] : List Nat)).length + (cbor_encode_u64 v).length ≤ 16 := by
      simp only [List.length_nil, Nat.zero_add]
      omega
    rw [if_pos hc]
    simp
  · intro v hv
    unfold cbor_encode_u64 cbor_head
    rw [if_pos (by omega)]
    norm_num
  · intro v hlo hhi
    unfold cbor_encode_u64 cbor_head
    rw [if_neg (by omega), if_pos (by omega)]
  · intro v hlo hhi
    rw [cbor_encode_u64_length]
    unfold spec_min_uint_len
    split_ifs <;> omega
  · intro v hlo hhi
    rw [cbor_encode_u64_length]
    unfold spec_min_uint_len
    split_ifs <;> omega
  · intro v hlo
    rw [cbor_encode_u64_length]
    unfold spec_min_uint_len
    split_ifs <;> omega

/-- C6 witness: value 28 encodes as the two bytes `18 1C`, the minimum the
format allows for 28, and the head parser reads it back. -/
theorem C6_cbor_uint_minimal_witness :
    cbor_encode_u64 28 = [0x18, 28]
    ∧ (cbor_encode_u64 65536).length ≤ [0x1B, 0, 0, 0, 0, 0, 1, 0, 0].length :=
  ⟨C6_cbor_uint_minimal.2.2.1 28 (by decide) (by decide),
    C6_cbor_uint_minimal.2.2.2.2.2.2.1 65536 [0x1B, 0, 0, 0, 0, 0, 1, 0, 0]
      (by decide) (by decide)⟩

/-!
## C10: the peer address is sized but never encoded
-/

lemma except_bind_ok {ε α β : Type} {x : Except ε α} {f : α → Except ε β} {b : β}
    (h : x >>= f = .ok b) : ∃ a, x = .ok a ∧ f a = .ok b := by
  cases x with
  | error e => simp [Bind.bind, Except.bind] at h
  | ok a => exact ⟨a, rfl, by simpa [Bind.bind, Except.bind] using h⟩

lemma pb_write_ok {b b' : PacketBuilderM} {e : List Nat}
    (h : pb_write b e = .ok b') : b' = ⟨b.cap, b.data ++ e⟩ := by
  unfold pb_write at h
  by_cases hc : b.data.length + e.length ≤ b.cap
  · rw [if_pos hc] at h
    exact (Except.ok.inj h).symm
  · rw [if_neg hc] at h
    exact absurd h (by simp)

lemma pb_cbor_uint_ok {b b' : PacketBuilderM} {v : Nat}
    (h : pb_cbor_uint b v = .ok b') : b' = ⟨b.cap, b.data ++ cbor_encode_u64 v⟩ :=
  pb_write_ok h

lemma pb_cbor_bytes_ok {b b' : PacketBuilderM} {bs : List Nat}
    (h : pb_cbor_bytes b bs = .ok b') : b' = ⟨b.cap, b.data ++ cbor_encode_bytes bs⟩ :=
  pb_write_ok h

lemma pb_cbor_null_ok {b b' : PacketBuilderM}
    (h : pb_cbor_null b = .ok b') : b' = ⟨b.cap, b.data ++ [0xF6]⟩ :=
  pb_write_ok h

lemma pb_command_ok {b b' : PacketBuilderM} {c1 c2 c3 c4 c5 : Nat}
    (h : pb_command b c1 c2 c3 c4 c5 = .ok b') :
    b' = ⟨b.cap, [0x80 ||| c1, c2, c3, c4, c5]⟩ := by
  unfold pb_command at h
  by_cases hc : 5 ≤ b.cap
  · rw [if_pos hc] at h
    exact (Except.ok.inj h).symm
  · rw [if_neg hc] at h
    exact absurd h (by simp)

lemma encode_bt_data_ok {b b' : PacketBuilderM} {d : BtData}
    (h : encode_bt_data b d = .ok b') :
    b'.cap = b.cap ∧ ∃ r, b'.data = b.data ++ r := by
  unfold encode_bt_data at h
  obtain ⟨a1, h1, h⟩ := except_bind_ok h
  obtain ⟨a2, h2, h⟩ := except_bind_ok h
  have e1 := pb_cbor_uint_ok h1
  have e2 := pb_cbor_uint_ok h2
  have e3 := pb_cbor_bytes_ok h
  subst e1
  subst e2
  rw [e3]
  refine ⟨rfl, cbor_encode_u64 d.data_type ++ cbor_encode_u64 d.data.length
    ++ cbor_encode_bytes d.data, ?_⟩
  simp

lemma encode_bt_data_list_ok {l : List BtData} {b b' : PacketBuilderM}
    (h : encode_bt_data_list b l = .ok b') :
    b'.cap = b.cap ∧ ∃ r, b'.data = b.data ++ r := by
  induction l generalizing b with
  | nil =>
    unfold encode_bt_data_list at h
    have hb := Except.ok.inj h
    subst hb
    exact ⟨rfl, [], by simp⟩
  | cons d rest ih =>
    unfold encode_bt_data_list at h
    obtain ⟨a, ha, h2⟩ := except_bind_ok h
    obtain ⟨hcap1, r1, hr1⟩ := encode_bt_data_ok ha
    obtain ⟨hcap2, r2, hr2⟩ := ih h2
    refine ⟨by rw [hcap2, hcap1], r1 ++ r2, ?_⟩
    rw [hr2, hr1]
    simp

/-- C10: `encode_bt_le_adv_start` writes the CBOR null sentinel `0xF6` in
the peer-address position of the payload even when the parameter's peer is
`some` address, while `calculate_scratchpad_size` adds `align4(7)` to the
transmitted scratchpad size exactly when the peer is present: a packet
built with a peer carries a scratchpad size accounting for a peer address
whose value is never encoded in the payload. -/
theorem C10_peer_never_encoded (N ctx sg dg i s k o mn mx : Nat) (addr : BtAddrLe)
    (ad sd : List BtData) (p : Option BtAddrLe) (out : PacketBuilderM)
    (h : encode_bt_le_adv_start N ctx sg dg ⟨i, s, k, o, mn, mx, some addr⟩ ad sd = .ok out) :
    calculate_scratchpad_size ⟨i, s, k, o, mn, mx, p⟩ ad sd
        = calculate_scratchpad_size ⟨i, s, k, o, mn, mx, none⟩ ad sd
          + (if p.isSome then align_to_4 7 else 0)
    ∧ ∃ rest, out.data
        = [0x80 ||| ctx, 0x04, 0xFF, sg, dg]
          ++ cbor_encode_u64 (calculate_scratchpad_size ⟨i, s, k, o, mn, mx, some addr⟩ ad sd)
          ++ cbor_encode_u64 i ++ cbor_encode_u64 s ++ cbor_encode_u64 k
          ++ cbor_encode_u64 o ++ cbor_encode_u64 mn ++ cbor_encode_u64 mx
          ++ [0xF6] ++ rest := by
  constructor
  · cases p with
    | none => simp [calculate_scratchpad_size]
    | some a => simp [calculate_scratchpad_size]
  · unfold encode_bt_le_adv_start at h
    obtain ⟨b1, h1, h⟩ := except_bind_ok h
    obtain ⟨b2, h2, h⟩ := except_bind_ok h
    obtain ⟨b3, h3, h⟩ := except_bind_ok h
    obtain ⟨b4, h4, h⟩ := except_bind_ok h
    obtain ⟨b5, h5, h⟩ := except_bind_ok h
    obtain ⟨b6, h6, h⟩ := except_bind_ok h
    obtain ⟨b7, h7, h⟩ := except_bind_ok h
    obtain ⟨b8, h8, h⟩ := except_bind_ok h
    obtain ⟨b9, h9, h⟩ := except_bind_ok h
    obtain ⟨b10, h10, h⟩ := except_bind_ok h
    obtain ⟨b11, h11, h⟩ := except_bind_ok h
    obtain ⟨b12, h12, h⟩ := except_bind_ok h
    obtain ⟨b13, h13, h⟩ := except_bind_ok h
    have e1 := pb_command_ok h1
    have e2 := pb_cbor_uint_ok h2
    have e3 := pb_cbor_uint_ok h3
    have e4 := pb_cbor_uint_ok h4
    have e5 := pb_cbor_uint_ok h5
    have e6 := pb_cbor_uint_ok h6
    have e7 := pb_cbor_uint_ok h7
    have e8 := pb_cbor_uint_ok h8
    have e9 := pb_cbor_null_ok h9
    have e10 := pb_cbor_uint_ok h10
    obtain ⟨-, r1, hr1⟩ := encode_bt_data_list_ok h11
    have e12 := pb_cbor_uint_ok h12
    obtain ⟨-, r2, hr2⟩ := encode_bt_data_list_ok h13
    have eout := pb_cbor_null_ok h
    subst e1 e2 e3 e4 e5 e6 e7 e8 e9 e10 e12 eout
    refine ⟨cbor_encode_u64 ad.length ++ r1 ++ cbor_encode_u64 sd.length ++ r2 ++ [0xF6], ?_⟩
    simp only [PacketBuilderM.mk.injEq] at hr1 hr2 ⊢
    rw [hr2, hr1]
    simp [BT_LE_ADV_START_RPC_CMD]

/-- C10 witness: the advertise-start call of the trace but with a peer
address present: the scratchpad size grows from 32 to 40 while the payload
still carries `0xF6` (here at offset 15) in the peer position. -/
theorem C10_peer_never_encoded_witness :
    calculate_scratchpad_size ⟨0, 0, 0, 3, 160, 240, some ⟨0, [1, 2, 3, 4, 5, 6]⟩⟩
        [⟨1, [6]⟩] [⟨9, [0x4E, 0x6F, 0x72, 0x64, 0x69, 0x63, 0x5F, 0x50, 0x53]⟩]
        = calculate_scratchpad_size ⟨0, 0, 0, 3, 160, 240, none⟩
            [⟨1, [6]⟩] [⟨9, [0x4E, 0x6F, 0x72, 0x64, 0x69, 0x63, 0x5F, 0x50, 0x53]⟩]
          + (if (some (⟨0, [1, 2, 3, 4, 5, 6]⟩ : BtAddrLe)).isSome then align_to_4 7 else 0)
    ∧ ∃ rest,
        (⟨256, [0x80, 0x04, 0xFF, 0x00, 0x00, 0x18, 0x28, 0x00, 0x00, 0x00, 0x03, 0x18, 0xA0,
            0x18, 0xF0, 0xF6, 0x01, 0x01, 0x01, 0x41, 0x06, 0x01, 0x09, 0x09, 0x49, 0x4E,
            0x6F, 0x72, 0x64, 0x69, 0x63, 0x5F, 0x50, 0x53, 0xF6]⟩ : PacketBuilderM).data
          = [0x80 ||| 0, 0x04, 0xFF, 0x00, 0x00]
            ++ cbor_encode_u64 (calculate_scratchpad_size
                ⟨0, 0, 0, 3, 160, 240, some ⟨0, [1, 2, 3, 4, 5, 6]⟩⟩
                [⟨1, [6]⟩] [⟨9, [0x4E, 0x6F, 0x72, 0x64, 0x69, 0x63, 0x5F, 0x50, 0x53]⟩])
            ++ cbor_encode_u64 0 ++ cbor_encode_u64 0 ++ cbor_encode_u64 0
            ++ cbor_encode_u64 3 ++ cbor_encode_u64 160 ++ cbor_encode_u64 240
            ++ [0xF6] ++ rest :=
  C10_peer_never_encoded 256 0 0 0 0 0 0 3 160 240 ⟨0, [1, 2, 3, 4, 5, 6]⟩
    [⟨1, [6]⟩] [⟨9, [0x4E, 0x6F, 0x72, 0x64, 0x69, 0x63, 0x5F, 0x50, 0x53]⟩]
    (some ⟨0, [1, 2, 3, 4, 5, 6]⟩)
    ⟨256, [0x80, 0x04, 0xFF, 0x00, 0x00, 0x18, 0x28, 0x00, 0x00, 0x00, 0x03, 0x18, 0xA0,
      0x18, 0xF0, 0xF6, 0x01, 0x01, 0x01, 0x41, 0x06, 0x01, 0x09, 0x09, 0x49, 0x4E,
      0x6F, 0x72, 0x64, 0x69, 0x63, 0x5F, 0x50, 0x53, 0xF6]⟩
    (by decide)

end NrfRpc
